import Mathlib

/-!
Verification of the Onco-GPS / dataframe-utility repository.

The development shallowly embeds the parts of the code the claims are about:

* `src/ccal/visualize.py` (`plot_onco_gps`): grid axes, convex-region gated
  background and mask layers, state colors, continuous annotation colors,
  component label placement, type-tag dispatch.
* `src/kraft/dataframe.py`: `drop_axis_label` / `drop_axes_label` and `pivot`.
* `src/kwat/vcf/make_variant_dict_consistent.py`.

Machine floats are modelled by `ℚ`, `NaN`-able cells by `Option ℚ`, Python
exceptions by `Except`/`Option`, and external library callbacks (the matplotlib
`Path.contains_point` test, colormap lookup) by function parameters.
-/

namespace Spec2Proof

/-! ### ccal/visualize.py : plot_onco_gps -/

/-- Embedding of `numpy.linspace(0, 1, n)` used at src/ccal/visualize.py:188-189
(`x_grids` / `y_grids`): `n` evenly spaced points from 0 to 1 inclusive.
For `n = 1` numpy returns the single point `[0]`. -/
def linspace01 (n : ℕ) : List ℚ :=
  if n = 1 then [(0 : ℚ)] else (List.range n).map (fun i : ℕ => (i : ℚ) / ((n : ℚ) - 1))

/-- The `(i, j)` loop of the background and mask layers
(src/ccal/visualize.py:260-261, 270-271): `i` ranges over
`grid_probabilities.shape[0]`, `j` over `shape[1]`. -/
def gridCells (r c : ℕ) : List (ℕ × ℕ) :=
  (List.range r).flatMap (fun i => (List.range c).map (fun j => (i, j)))

/-- The probed point `(x_grids[i], y_grids[j])` of a grid cell
(src/ccal/visualize.py:262, 272). -/
def gridPoint (r c : ℕ) (cell : ℕ × ℕ) : ℚ × ℚ :=
  ((linspace01 r).getD cell.1 0, (linspace01 c).getD cell.2 0)

/-- Minimum of a list of rationals (`numpy.ndarray.min`). -/
def listMin : List ℚ → ℚ
  | [] => 0
  | x :: xs => xs.foldl min x

/-- Maximum of a list of rationals (`numpy.ndarray.max`). -/
def listMax : List ℚ → ℚ
  | [] => 0
  | x :: xs => xs.foldl max x

/-- All entries of the probability grid, row major. -/
def gridValues (gp : ℕ → ℕ → ℚ) (r c : ℕ) : List ℚ :=
  (gridCells r c).map (fun p => gp p.1 p.2)

/-- Embedding of the background layer (src/ccal/visualize.py:256-267).
When `background_markersize > 0`, every grid cell whose point the convex-hull
region contains is drawn as a square with alpha
`min(background_max_alpha, (p - p_min) / (p_max - p_min))`; other cells are
skipped.  `contains` stands for the external
`matplotlib.path.Path.contains_point` test on the hull region.
Returns the drawn cells paired with their alpha. -/
def backgroundLayer (contains : ℚ × ℚ → Bool) (gp : ℕ → ℕ → ℚ) (r c : ℕ)
    (background_markersize background_max_alpha : ℚ) : List ((ℕ × ℕ) × ℚ) :=
  if 0 < background_markersize then
    ((gridCells r c).filter (fun p => contains (gridPoint r c p))).map
      (fun p => (p, min background_max_alpha
        ((gp p.1 p.2 - listMin (gridValues gp r c)) /
          (listMax (gridValues gp r c) - listMin (gridValues gp r c)))))
  else []

/-- Embedding of the background mask layer (src/ccal/visualize.py:269-274).
When `background_mask_markersize > 0`, every grid cell whose point the region
does NOT contain is drawn as a white square. -/
def maskLayer (contains : ℚ × ℚ → Bool) (r c : ℕ)
    (background_mask_markersize : ℚ) : List (ℕ × ℕ) :=
  if 0 < background_mask_markersize then
    (gridCells r c).filter (fun p => ! contains (gridPoint r c p))
  else []

/-- Python `int()` applied to a rational: truncation toward zero. -/
def pyInt (q : ℚ) : ℤ := if q < 0 then -(⌊-q⌋) else ⌊q⌋

/-- The palette index `int(s / len(unique_states) * CMAP_CATEGORICAL.N)`
computed at src/ccal/visualize.py:253; `paletteN` stands for
`CMAP_CATEGORICAL.N`. -/
def stateColorIndex (paletteN n_unique_states : ℕ) (s : ℚ) : ℤ :=
  pyInt (s / (n_unique_states : ℚ) * (paletteN : ℚ))

/-- The color assigned to state `s` (src/ccal/visualize.py:249-253); `palette`
stands for the external `CMAP_CATEGORICAL` lookup. -/
def statesColor {α : Type} (palette : ℤ → α) (paletteN n_unique_states : ℕ) (s : ℚ) : α :=
  palette (stateColorIndex paletteN n_unique_states s)

/-- Modelled from the spec: `normalize_pandas_object` (imported from
`ccal.support`, which is not under src/) z-score standardizes a series. -/
def zscore (mean std v : ℚ) : ℚ := (v - mean) / std

/-- `pandas.Series.clip(lower, upper)` on one value. -/
def pandasClip (lower upper x : ℚ) : ℚ := max lower (min upper x)

/-- A matplotlib colormap called on a float: the argument is interpreted over
the unit interval, values below 0 taking the lowest entry and values above 1
the highest (`cmap` stands for the colormap's lookup on `[0, 1]`). -/
def cmapCall {α : Type} (cmap : ℚ → α) (x : ℚ) : α := cmap (pandasClip 0 1 x)

/-- Embedding of the continuous-annotation marker color
(src/ccal/visualize.py:281, 304-305): the annotation column holds the z-score
clipped to `±std_max`, and the marker color is the colormap applied to that
clipped value directly. -/
def continuousSampleColor {α : Type} (cmap : ℚ → α) (mean std std_max v : ℚ) : α :=
  cmapCall cmap (pandasClip (-std_max) std_max (zscore mean std v))

/-- The color claim C4 describes: the same clipped z-score, but mapped through
the colormap after normalizing over `[-std_max, std_max]` (stated from the
spec's words, for comparison with `continuousSampleColor`). -/
def claimContinuousSampleColor {α : Type} (cmap : ℚ → α) (mean std std_max v : ℚ) : α :=
  cmapCall cmap ((pandasClip (-std_max) std_max (zscore mean std v) + std_max) / (2 * std_max))

/-- The `component_text_position` argument (src/ccal/visualize.py:159). -/
inductive TextPosition
  | auto
  | top
  | bottom
deriving DecidableEq

/-- One iteration of the label-placement loop body
(src/ccal/visualize.py:224-232) acting on the running
`component_text_verticalshift`. -/
def shiftStep (contains : ℚ × ℚ → Bool) (pos : TextPosition) (xy : ℚ × ℚ) (shift : ℚ) : ℚ :=
  match pos with
  | .auto => if contains (xy.1, xy.2 + shift) then -shift else shift
  | .top => -shift
  | .bottom => shift

/-- The label-placement loop (src/ccal/visualize.py:224-233): the shift
variable persists across iterations; each component's label is drawn at
vertical offset equal to the shift value after its own iteration. -/
def labelShifts (contains : ℚ × ℚ → Bool) (pos : TextPosition) :
    List (ℚ × ℚ) → ℚ → List ℚ
  | [], _ => []
  | xy :: rest, shift =>
    let s := shiftStep contains pos xy shift
    s :: labelShifts contains pos rest s

/-- The vertical offsets of all component labels, starting from the initial
`component_text_verticalshift = -0.03` (src/ccal/visualize.py:223). -/
def componentLabelShifts (contains : ℚ × ℚ → Bool) (pos : TextPosition)
    (comps : List (ℚ × ℚ)) : List ℚ :=
  labelShifts contains pos comps (-(3/100))

/-- The colormap choice on the annotation type tag
(src/ccal/visualize.py:280-296): an unrecognized tag raises
`ValueError('Unknown annotation_type {}.')`, embedded as `Except.error` holding
the message. -/
def annotationCmapChoice (annotation_type : String) : Except String String :=
  if annotation_type = "continuous" then .ok "CMAP_CONTINUOUS"
  else if annotation_type = "categorical" then .ok "CMAP_CATEGORICAL"
  else if annotation_type = "binary" then .ok "CMAP_BINARY"
  else .error ("Unknown annotation_type " ++ annotation_type ++ ".")

/-- The two effect-plot kinds the renderer knows. -/
inductive EffectPlot
  | violine
  | box
deriving DecidableEq

/-- The effect-plot dispatch (src/ccal/visualize.py:320-335): an
`if/elif` chain with no `else`, so an unrecognized `effectplot_type` selects
no plot (`none`) and raises nothing. -/
def effectplotChoice (effectplot_type : String) : Option EffectPlot :=
  if effectplot_type = "violine" then some .violine
  else if effectplot_type = "box" then some .box
  else none

/-! ### Lemmas about the grid axes -/

theorem linspace01_length (n : ℕ) : (linspace01 n).length = n := by
  unfold linspace01
  split
  · simp only [List.length_singleton]
    omega
  · rw [List.length_map, List.length_range]

theorem linspace01_getD (n : ℕ) (hn : 2 ≤ n) (i : ℕ) (hi : i < n) :
    (linspace01 n).getD i 0 = (i : ℚ) / ((n : ℚ) - 1) := by
  unfold linspace01
  rw [if_neg (by omega)]
  rw [List.getD_eq_getElem _ _ (by rw [List.length_map, List.length_range]; omega)]
  rw [List.getElem_map, List.getElem_range]

theorem linspace01_head (n : ℕ) (hn : 2 ≤ n) : (linspace01 n).head? = some 0 := by
  have h0 : (0 : ℕ) < (linspace01 n).length := by rw [linspace01_length]; omega
  rw [List.head?_eq_getElem?, List.getElem?_eq_getElem h0]
  have := linspace01_getD n hn 0 (by omega)
  rw [List.getD_eq_getElem _ _ h0] at this
  rw [this]
  norm_num

theorem linspace01_last (n : ℕ) (hn : 2 ≤ n) : (linspace01 n).getLast? = some 1 := by
  have hlen : (linspace01 n).length = n := linspace01_length n
  have h0 : n - 1 < (linspace01 n).length := by omega
  rw [List.getLast?_eq_getElem?, hlen, List.getElem?_eq_getElem h0]
  have := linspace01_getD n hn (n - 1) (by omega)
  rw [List.getD_eq_getElem _ _ h0] at this
  rw [this]
  have hcast : ((n - 1 : ℕ) : ℚ) = (n : ℚ) - 1 := by
    have : (1 : ℕ) ≤ n := by omega
    push_cast [this]
    ring
  have hne : (n : ℚ) - 1 ≠ 0 := by
    have : (2 : ℚ) ≤ (n : ℚ) := by exact_mod_cast hn
    linarith
  rw [hcast, div_self hne]

theorem linspace01_step (n : ℕ) (hn : 2 ≤ n) (i : ℕ) (hi : i + 1 < n) :
    (linspace01 n).getD (i + 1) 0 - (linspace01 n).getD i 0 = 1 / ((n : ℚ) - 1) := by
  rw [linspace01_getD n hn (i + 1) hi, linspace01_getD n hn i (by omega)]
  rw [div_sub_div_same]
  push_cast
  ring_nf

theorem linspace01_strictMono (n : ℕ) (hn : 2 ≤ n) (i : ℕ) (hi : i + 1 < n) :
    (linspace01 n).getD i 0 < (linspace01 n).getD (i + 1) 0 := by
  rw [linspace01_getD n hn (i + 1) hi, linspace01_getD n hn i (by omega)]
  have hpos : (0 : ℚ) < (n : ℚ) - 1 := by
    have : (2 : ℚ) ≤ (n : ℚ) := by exact_mod_cast hn
    linarith
  apply div_lt_div_of_pos_right _ hpos
  exact_mod_cast Nat.lt_succ_self i

/-- Claim C2 (amended: the stated span and monotonicity hold for grid
dimensions of at least 2; a dimension of 1 yields the single point 0): for a
probability grid of shape `(r, c)`, the two derived coordinate axes have
exactly `r` and `c` points, are strictly increasing with uniform spacing
`1/(r-1)` resp. `1/(c-1)`, start at 0 and end at 1. -/
theorem c2_axes_uniform_span (r c : ℕ) (hr : 2 ≤ r) (hc : 2 ≤ c) :
    ((linspace01 r).length = r ∧ (linspace01 c).length = c) ∧
    ((linspace01 r).head? = some 0 ∧ (linspace01 c).head? = some 0) ∧
    ((linspace01 r).getLast? = some 1 ∧ (linspace01 c).getLast? = some 1) ∧
    (∀ i, i + 1 < r →
      (linspace01 r).getD i 0 < (linspace01 r).getD (i + 1) 0 ∧
      (linspace01 r).getD (i + 1) 0 - (linspace01 r).getD i 0 = 1 / ((r : ℚ) - 1)) ∧
    (∀ j, j + 1 < c →
      (linspace01 c).getD j 0 < (linspace01 c).getD (j + 1) 0 ∧
      (linspace01 c).getD (j + 1) 0 - (linspace01 c).getD j 0 = 1 / ((c : ℚ) - 1)) :=
  ⟨⟨linspace01_length r, linspace01_length c⟩,
   ⟨linspace01_head r hr, linspace01_head c hc⟩,
   ⟨linspace01_last r hr, linspace01_last c hc⟩,
   fun i hi => ⟨linspace01_strictMono r hr i hi, linspace01_step r hr i hi⟩,
   fun j hj => ⟨linspace01_strictMono c hc j hj, linspace01_step c hc j hj⟩⟩

/-- Witness for C2's amended theorem at the concrete shape `(3, 2)`. -/
theorem c2_axes_uniform_span_witness :
    (2 ≤ 3 ∧ 2 ≤ 2) ∧ (linspace01 3).getLast? = some 1 ∧ (linspace01 2).getLast? = some 1 :=
  ⟨⟨by norm_num, by norm_num⟩,
   (c2_axes_uniform_span 3 2 (by norm_num) (by norm_num)).2.2.1⟩

/-- Counterexample for C2 as stated: for a grid of shape `(1, c)` the first
derived axis is the single point `[0]`, so its last element is 0, not 1 — it
does not span `[0, 1]` inclusively. -/
theorem c2_counterexample :
    linspace01 1 = [0] ∧ (linspace01 1).getLast? ≠ some 1 := by
  constructor
  · norm_num [linspace01]
  · norm_num [linspace01]

/-! ### Claims C1, C3-C7 about plot_onco_gps -/

/-- Claim C1: when both the background and the mask layers are drawn
(both marker sizes positive), a grid cell is background-drawn exactly when its
grid point lies inside the convex-hull region and mask-drawn exactly when it
lies outside; over the full grid the two sets are mutually exclusive and
jointly exhaustive. -/
theorem c1_background_mask_partition
    (contains : ℚ × ℚ → Bool) (gp : ℕ → ℕ → ℚ) (r c : ℕ)
    (bms mms bma : ℚ) (hb : 0 < bms) (hm : 0 < mms)
    (cell : ℕ × ℕ) (hcell : cell ∈ gridCells r c) :
    (cell ∈ (backgroundLayer contains gp r c bms bma).map Prod.fst ↔
      contains (gridPoint r c cell) = true) ∧
    (cell ∈ maskLayer contains r c mms ↔ ¬ contains (gridPoint r c cell) = true) ∧
    ¬ (cell ∈ (backgroundLayer contains gp r c bms bma).map Prod.fst ∧
        cell ∈ maskLayer contains r c mms) ∧
    (cell ∈ (backgroundLayer contains gp r c bms bma).map Prod.fst ∨
      cell ∈ maskLayer contains r c mms) := by
  have hbg : cell ∈ (backgroundLayer contains gp r c bms bma).map Prod.fst ↔
      contains (gridPoint r c cell) = true := by
    unfold backgroundLayer
    rw [if_pos hb, List.map_map]
    have hcomp : (Prod.fst ∘ fun p : ℕ × ℕ => (p, min bma
        ((gp p.1 p.2 - listMin (gridValues gp r c)) /
          (listMax (gridValues gp r c) - listMin (gridValues gp r c))))) = fun p => p := by
      funext p
      rfl
    rw [hcomp, List.map_id', List.mem_filter]
    simp [hcell]
  have hmk : cell ∈ maskLayer contains r c mms ↔
      ¬ contains (gridPoint r c cell) = true := by
    unfold maskLayer
    rw [if_pos hm, List.mem_filter]
    simp [hcell]
  refine ⟨hbg, hmk, ?_, ?_⟩
  · rintro ⟨h1, h2⟩
    exact (hmk.mp h2) (hbg.mp h1)
  · by_cases hco : contains (gridPoint r c cell) = true
    · exact Or.inl (hbg.mpr hco)
    · exact Or.inr (hmk.mpr hco)

/-- Witness for C1 at a concrete grid, probability field and region test. -/
theorem c1_background_mask_partition_witness :
    ((0 : ℚ) < 1 ∧ (0 : ℚ) < 1) ∧
    ((0, 0) ∈ (backgroundLayer (fun _ => true) (fun i j => (i : ℚ) + j) 2 2 1 (7/10)).map Prod.fst ∨
      (0, 0) ∈ maskLayer (fun _ => true) 2 2 1) :=
  ⟨⟨by norm_num, by norm_num⟩,
   (c1_background_mask_partition (fun _ => true) (fun i j => (i : ℚ) + j) 2 2 1 1 (7/10)
      (by norm_num) (by norm_num) (0, 0) (by decide)).2.2.2⟩

/-- Claim C3: the color of state `s` is the categorical palette entry at index
`int(s / n_unique_states * paletteN)`, which for nonnegative state values is
`⌊s / n_unique_states * paletteN⌋`; the index is computed from the label's own
numeric value, so two distinct labels with the same floor index receive the
same color — concretely, with 13 unique states the distinct labels 0 and 1
both get index 0. -/
theorem c3_state_color_from_value {α : Type} (palette : ℤ → α) (paletteN n_states : ℕ)
    (s s' : ℚ) (hs : 0 ≤ s) :
    statesColor palette paletteN n_states s =
      palette ⌊s / (n_states : ℚ) * (paletteN : ℚ)⌋ ∧
    (stateColorIndex paletteN n_states s = stateColorIndex paletteN n_states s' →
      statesColor palette paletteN n_states s = statesColor palette paletteN n_states s') ∧
    stateColorIndex 12 13 0 = 0 ∧ stateColorIndex 12 13 1 = 0 ∧ (0 : ℚ) ≠ 1 := by
  refine ⟨?_, ?_, ?_, ?_, by norm_num⟩
  · have hq : 0 ≤ s / (n_states : ℚ) * (paletteN : ℚ) :=
      mul_nonneg (div_nonneg hs (Nat.cast_nonneg _)) (Nat.cast_nonneg _)
    unfold statesColor stateColorIndex pyInt
    rw [if_neg (not_lt.mpr hq)]
  · intro h
    unfold statesColor
    rw [h]
  · unfold stateColorIndex pyInt
    norm_num
  · unfold stateColorIndex pyInt
    rw [if_neg (by norm_num)]
    have h1213 : (1 : ℚ) / ((13 : ℕ) : ℚ) * ((12 : ℕ) : ℚ) = 12 / 13 := by norm_num
    rw [h1213, Int.floor_eq_zero_iff]
    exact Set.mem_Ico.mpr ⟨by norm_num, by norm_num⟩

/-- Witness for C3 with the identity palette, 13 unique states, labels 0, 1. -/
theorem c3_state_color_from_value_witness :
    (0 : ℚ) ≤ 0 ∧ stateColorIndex 12 13 0 = 0 ∧ stateColorIndex 12 13 1 = 0 :=
  ⟨le_refl 0,
   (c3_state_color_from_value (fun i => i) 12 13 0 1 (le_refl 0)).2.2.1,
   (c3_state_color_from_value (fun i => i) 12 13 0 1 (le_refl 0)).2.2.2.1⟩

/-- Claim C4 evaluated at the failing input (code bug): with mean 0, std 1 and
`std_max = 3`, a sample whose standardized annotation is 0 is colored
`cmap(0)` — the colormap's LOWER endpoint — because the code passes the
clipped z-score to the colormap directly (src/ccal/visualize.py:305), while
the claim's normalization over `[-std_max, std_max]` would color it
`cmap(1/2)`, the midpoint. -/
theorem c4_continuous_color_not_normalized {α : Type} (cmap : ℚ → α) :
    continuousSampleColor cmap 0 1 3 0 = cmap 0 ∧
    claimContinuousSampleColor cmap 0 1 3 0 = cmap (1/2) := by
  constructor
  · unfold continuousSampleColor cmapCall pandasClip zscore
    norm_num
  · unfold claimContinuousSampleColor cmapCall pandasClip zscore
    norm_num

/-- Counterexample for C5 as stated: on a 2x2 grid with probabilities
`p(i,j) = i + j` (min 0, max 2) and `background_max_alpha = 7/10`, the cell
`(0, 1)` has rescaled fraction 1/2 and is drawn with alpha
`min(7/10, 1/2) = 1/2`, not the claimed `7/10 * 1/2 = 7/20`. -/
theorem c5_counterexample :
    ((0, 1), (1 : ℚ)/2) ∈
      backgroundLayer (fun _ => true) (fun i j => (i : ℚ) + j) 2 2 1 (7/10) ∧
    ((0, 1), (7 : ℚ)/20) ∉
      backgroundLayer (fun _ => true) (fun i j => (i : ℚ) + j) 2 2 1 (7/10) ∧
    (7 : ℚ)/10 * ((1 - 0) / (2 - 0)) = 7/20 := by
  have hval : backgroundLayer (fun _ => true) (fun i j => (i : ℚ) + j) 2 2 1 (7/10) =
      [((0, 0), 0), ((0, 1), 1/2), ((1, 0), 1/2), ((1, 1), 7/10)] := by
    norm_num [backgroundLayer, gridCells, gridValues, listMin, listMax,
      List.range_succ, min_def, max_def]
  rw [hval]
  refine ⟨by norm_num, ?_, by norm_num⟩
  norm_num [List.mem_cons, Prod.mk.injEq]

/-- Claim C5 (amended: the alpha is the rescaled fraction clamped from above
at `background_max_alpha`, i.e. `min(background_max_alpha, (p - p_min)/(p_max
- p_min))`, not the product): every inside cell is drawn with exactly that
alpha and every outside cell is skipped. -/
theorem c5_amended_background_alpha
    (contains : ℚ × ℚ → Bool) (gp : ℕ → ℕ → ℚ) (r c : ℕ) (bms bma : ℚ)
    (hb : 0 < bms) (cell : ℕ × ℕ) (hcell : cell ∈ gridCells r c) :
    (contains (gridPoint r c cell) = true →
      (cell, min bma ((gp cell.1 cell.2 - listMin (gridValues gp r c)) /
        (listMax (gridValues gp r c) - listMin (gridValues gp r c)))) ∈
        backgroundLayer contains gp r c bms bma) ∧
    (contains (gridPoint r c cell) = false →
      ∀ a, (cell, a) ∉ backgroundLayer contains gp r c bms bma) := by
  unfold backgroundLayer
  rw [if_pos hb]
  constructor
  · intro hcont
    exact List.mem_map_of_mem _ (List.mem_filter.mpr ⟨hcell, hcont⟩)
  · intro hcont a hmem
    obtain ⟨p, hp, hpe⟩ := List.mem_map.mp hmem
    have hpc : p = cell := congrArg Prod.fst hpe
    subst hpc
    have hf := (List.mem_filter.mp hp).2
    rw [hcont] at hf
    exact Bool.false_ne_true hf

/-- Witness for C5's amended theorem at the concrete grid of the
counterexample. -/
theorem c5_amended_background_alpha_witness :
    (0 : ℚ) < 1 ∧
    ((0, 1), min (7/10 : ℚ)
      ((((0 : ℕ) : ℚ) + ((1 : ℕ) : ℚ) - listMin (gridValues (fun i j => (i : ℚ) + j) 2 2)) /
        (listMax (gridValues (fun i j => (i : ℚ) + j) 2 2) -
          listMin (gridValues (fun i j => (i : ℚ) + j) 2 2)))) ∈
      backgroundLayer (fun _ => true) (fun i j => (i : ℚ) + j) 2 2 1 (7/10) :=
  ⟨by norm_num,
   (c5_amended_background_alpha (fun _ => true) (fun i j => (i : ℚ) + j) 2 2 1 (7/10)
      (by norm_num) (0, 1) (by decide)).1 rfl⟩

/-- Claim C6 evaluated at the failing input (code bug): in `'top'` mode the
shift variable is negated on EVERY loop iteration
(src/ccal/visualize.py:229-230) and persists across iterations, so with two
components the offsets alternate `[+0.03, -0.03]` — the second component's
label is placed BELOW its marker, contradicting one fixed offset sign for all
components. -/
theorem c6_top_mode_alternating_offsets :
    componentLabelShifts (fun _ => true) TextPosition.top [(0, 0), (1, 1)] =
      [3/100, -(3/100)] ∧
    ¬ ∀ s ∈ componentLabelShifts (fun _ => true) TextPosition.top [(0, 0), (1, 1)], 0 < s := by
  have h : componentLabelShifts (fun _ => true) TextPosition.top [(0, 0), (1, 1)] =
      [3/100, -(3/100)] := by
    simp only [componentLabelShifts, labelShifts, shiftStep]
    norm_num
  refine ⟨h, ?_⟩
  rw [h]
  intro hall
  have h2 := hall (-(3/100)) (by simp)
  norm_num at h2

/-- Counterexample for C7 as stated: an unrecognized `effectplot_type` does
NOT raise — the `if/elif` chain at src/ccal/visualize.py:320-335 has no
`else`, so the effect-plot stage is silently skipped (`none`), with no error
surfaced to the caller. -/
theorem c7_counterexample : effectplotChoice "points" = none := by
  unfold effectplotChoice
  rw [if_neg (by decide), if_neg (by decide)]

/-- Claim C7 (amended: an unrecognized `annotation_type` raises an immediate
ValueError with no retry and no default, but an unrecognized
`effectplot_type` raises nothing — the effect-plot stage is silently
skipped). -/
theorem c7_amended_dispatch (t u : String)
    (h1 : t ≠ "continuous") (h2 : t ≠ "categorical") (h3 : t ≠ "binary")
    (h4 : u ≠ "violine") (h5 : u ≠ "box") :
    annotationCmapChoice t = .error ("Unknown annotation_type " ++ t ++ ".") ∧
    effectplotChoice u = none := by
  unfold annotationCmapChoice effectplotChoice
  rw [if_neg h1, if_neg h2, if_neg h3, if_neg h4, if_neg h5]
  exact ⟨rfl, rfl⟩

/-- Witness for C7's amended theorem at concrete unrecognized tags. -/
theorem c7_amended_dispatch_witness :
    ("heatmap" ≠ "continuous" ∧ "bar" ≠ "violine") ∧
    annotationCmapChoice "heatmap" = .error ("Unknown annotation_type " ++ "heatmap" ++ ".") ∧
    effectplotChoice "bar" = none :=
  ⟨⟨by decide, by decide⟩,
   (c7_amended_dispatch "heatmap" "bar" (by decide) (by decide) (by decide)
      (by decide) (by decide)).1,
   (c7_amended_dispatch "heatmap" "bar" (by decide) (by decide) (by decide)
      (by decide) (by decide)).2⟩

/-! ### kraft/dataframe.py : drop_axis_label and drop_axes_label -/

/-- A pandas DataFrame with row labels, column labels and numeric cells in
which `none` embeds `NaN`: each element of `rows` is a row label paired with
that row's cell vector. -/
structure Table where
  colLabels : List String
  rows : List (String × List (Option ℚ))
deriving DecidableEq

/-- `dataframe.shape[0]`. -/
def Table.nRows (t : Table) : ℕ := t.rows.length

/-- `dataframe.shape[1]`. -/
def Table.nCols (t : Table) : ℕ := t.colLabels.length

/-- `dataframe.shape`. -/
def Table.tShape (t : Table) : ℕ × ℕ := (t.nRows, t.nCols)

/-- A table is rectangular: every row has one cell per column label. -/
def Table.Rect (t : Table) : Prop := ∀ r ∈ t.rows, r.2.length = t.colLabels.length

instance (t : Table) : Decidable t.Rect := by
  unfold Table.Rect
  infer_instance

/-- `numpy` boolean-mask indexing `xs[mask]` on a list. -/
def filterByMask {α : Type} : List α → List Bool → List α
  | [], _ => []
  | _ :: _, [] => []
  | x :: xs, b :: bs => if b then x :: filterByMask xs bs else filterByMask xs bs

/-- Number of `true` entries in a boolean mask. -/
def countTrue : List Bool → ℕ
  | [] => 0
  | b :: bs => (if b then 1 else 0) + countTrue bs

/-- The columns of a row-major cell matrix: entry `j` is the vector of the
`j`-th cell of every row. -/
def colsOf {α : Type} (d : α) (L : List (List α)) (n : ℕ) : List (List α) :=
  (List.range n).map (fun j => L.map (fun v => v.getD j d))

/-- The column vectors of a table, in column order (what
`apply_along_axis(f, 0, matrix)` iterates over). -/
def Table.colVecs (t : Table) : List (List (Option ℚ)) :=
  colsOf none (t.rows.map Prod.snd) t.nCols

/-- `(~isna(vector)).sum()`: the number of non-NaN entries of a vector. -/
def goodCount (v : List (Option ℚ)) : ℕ := (v.filterMap id).length

/-- `unique(vector[~isna(vector)]).size`: the number of distinct non-NaN
entries of a vector. -/
def goodUniqueCount (v : List (Option ℚ)) : ℕ := (v.filterMap id).dedup.length

/-- Threshold resolution (src/kraft/dataframe.py:55-57, 65-67): a threshold
below 1 is taken as a fraction of the opposite-axis length. -/
def resolveThreshold (m : ℚ) (oppositeLen : ℕ) : ℚ :=
  if m < 1 then m * (oppositeLen : ℚ) else m

/-- One `is_kept` conjunct of `drop_axis_label`: an absent threshold keeps
everything, a present one requires `resolved ≤ count`. -/
def passes (threshold : Option ℚ) (oppositeLen : ℕ) (count : ℕ) : Bool :=
  match threshold with
  | none => true
  | some m => if resolveThreshold m oppositeLen ≤ (count : ℚ) then true else false

/-- The combined keep test of `drop_axis_label` (src/kraft/dataframe.py:41-73)
on one cross vector. -/
def vectorKept (mgv mguv : Option ℚ) (oppositeLen : ℕ) (v : List (Option ℚ)) : Bool :=
  passes mgv oppositeLen (goodCount v) && passes mguv oppositeLen (goodUniqueCount v)

/-- Embedding of `drop_axis_label` (src/kraft/dataframe.py:35-85).
`axis = false` is Python `axis=0`: keep the rows whose vector passes the test
resolved against the column count.  `axis = true` is `axis=1`: keep the
columns whose vector passes the test resolved against the row count, filtering
the column labels and every row's cells by the same mask.  The function
asserts that at least one threshold is given; a failed assertion is `none`. -/
def drop_axis_label (t : Table) (axis : Bool) (mgv mguv : Option ℚ) : Option Table :=
  if mgv = none ∧ mguv = none then none
  else if axis = false then
    some { colLabels := t.colLabels,
           rows := t.rows.filter (fun r => vectorKept mgv mguv t.nCols r.2) }
  else
    some { colLabels := filterByMask t.colLabels (t.colVecs.map (vectorKept mgv mguv t.nRows)),
           rows := t.rows.map
             (fun r => (r.1, filterByMask r.2 (t.colVecs.map (vectorKept mgv mguv t.nRows)))) }

theorem filterByMask_length_le {α : Type} : ∀ (xs : List α) (bs : List Bool),
    (filterByMask xs bs).length ≤ xs.length
  | [], bs => by cases bs <;> simp [filterByMask]
  | _ :: _, [] => by simp [filterByMask]
  | x :: xs, b :: bs => by
    simp only [filterByMask]
    split
    · simpa using filterByMask_length_le xs bs
    · exact le_trans (filterByMask_length_le xs bs) (Nat.le_succ _)

theorem drop_axis_label_le (t : Table) (axis : Bool) (mgv mguv : Option ℚ) (t2 : Table)
    (h : drop_axis_label t axis mgv mguv = some t2) :
    t2.nRows ≤ t.nRows ∧ t2.nCols ≤ t.nCols := by
  unfold drop_axis_label at h
  split at h
  · exact absurd h (by simp)
  · split at h
    · cases h
      exact ⟨List.length_filter_le _ _, le_refl _⟩
    · cases h
      refine ⟨?_, filterByMask_length_le _ _⟩
      simp [Table.nRows]

/-- The while-loop of `drop_axes_label` (src/kraft/dataframe.py:100-125):
drop along `axis`; if a pass after the first changes nothing, return the
result; otherwise flip the axis, mark that returning is now allowed, and
continue.  The loop terminates because every non-returning pass either
strictly shrinks the table or turns `canReturn` on. -/
def dropAxesLoop (axis canReturn : Bool) (mgv mguv : Option ℚ) (t : Table) : Option Table :=
  match h : drop_axis_label t axis mgv mguv with
  | none => none
  | some t2 =>
    if hc : canReturn = true ∧ t2.tShape = t.tShape then some t2
    else dropAxesLoop (!axis) true mgv mguv t2
termination_by 2 * (t.nRows + t.nCols) + (if canReturn then 0 else 1)
decreasing_by
  have hle := drop_axis_label_le t axis mgv mguv t2 h
  cases canReturn with
  | false =>
    simp only [Bool.false_eq_true, if_false, if_true]
    omega
  | true =>
    have hsh : ¬ t2.tShape = t.tShape := fun hs => hc ⟨rfl, hs⟩
    have hne : ¬ (t2.nRows = t.nRows ∧ t2.nCols = t.nCols) := by
      rintro ⟨h1, h2⟩
      exact hsh (by simp [Table.tShape, h1, h2])
    simp only [if_true]
    omega

/-- Embedding of `drop_axes_label` (src/kraft/dataframe.py:88-125); `axis =
none` starts from the longer axis (`int(shape[0] < shape[1])`, `true` being
Python axis 1). -/
def drop_axes_label (t : Table) (axis : Option Bool) (mgv mguv : Option ℚ) : Option Table :=
  dropAxesLoop (axis.getD (decide (t.nRows < t.nCols))) false mgv mguv t

/-! ### Mask and column lemmas -/

theorem filterByMask_all_true {α : Type} : ∀ (xs : List α) (bs : List Bool),
    (∀ b ∈ bs, b = true) → xs.length ≤ bs.length → filterByMask xs bs = xs
  | [], _, _, _ => rfl
  | _ :: _, [], _, hlen => by simp at hlen
  | x :: xs, b :: bs, hall, hlen => by
    have hb : b = true := hall b (List.mem_cons_self b bs)
    simp only [filterByMask, hb, if_true]
    rw [filterByMask_all_true xs bs (fun b hb => hall b (List.mem_cons_of_mem _ hb))
      (by simpa using hlen)]

theorem filterByMask_length {α : Type} : ∀ (xs : List α) (bs : List Bool),
    bs.length ≤ xs.length → (filterByMask xs bs).length = countTrue bs
  | xs, [], _ => by cases xs <;> simp [filterByMask, countTrue]
  | [], _ :: _, h => by simp at h
  | x :: xs, b :: bs, h => by
    have ih := filterByMask_length xs bs (by simpa using h)
    cases b <;> simp [filterByMask, countTrue, ih] <;> try omega

theorem countTrue_eq_length : ∀ bs : List Bool, countTrue bs = bs.length →
    ∀ b ∈ bs, b = true
  | [], _, b, hb => absurd hb (List.not_mem_nil b)
  | b0 :: bs, h, b, hb => by
    have hle : countTrue bs ≤ bs.length := by
      clear h hb
      induction bs with
      | nil => simp [countTrue]
      | cons c cs ih => cases c <;> simp [countTrue] <;> omega
    cases b0 with
    | false =>
      exfalso
      simp [countTrue] at h
      omega
    | true =>
      rcases List.mem_cons.mp hb with rfl | hbs
      · rfl
      · apply countTrue_eq_length bs _ b hbs
        simp [countTrue] at h
        omega

theorem filterByMask_map_self {α : Type} (p : α → Bool) : ∀ xs : List α,
    filterByMask xs (xs.map p) = xs.filter p
  | [] => rfl
  | x :: xs => by
    by_cases hp : p x = true
    · simp [filterByMask, List.filter_cons, hp, filterByMask_map_self p xs]
    · simp only [Bool.not_eq_true] at hp
      simp [filterByMask, List.filter_cons, hp, filterByMask_map_self p xs]

theorem filter_length_eq_self {α : Type} (p : α → Bool) : ∀ l : List α,
    (l.filter p).length = l.length → l.filter p = l
  | [], _ => rfl
  | x :: xs, h => by
    by_cases hp : p x = true
    · rw [List.filter_cons_of_pos hp] at h ⊢
      simp only [List.length_cons] at h
      rw [filter_length_eq_self p xs (by omega)]
    · rw [List.filter_cons_of_neg (by simpa using hp)] at h
      have hle := List.length_filter_le p xs
      simp only [List.length_cons] at h
      omega

theorem getD_succ_tail {α : Type} (d : α) : ∀ (v : List α) (j : ℕ),
    v.getD (j + 1) d = v.tail.getD j d
  | [], _ => rfl
  | _ :: _, _ => rfl

theorem colsOf_succ {α : Type} (d : α) (L : List (List α)) (n : ℕ) :
    colsOf d L (n + 1) = L.map (fun v => v.getD 0 d) :: colsOf d (L.map List.tail) n := by
  unfold colsOf
  rw [List.range_succ_eq_map, List.map_cons, List.map_map]
  congr 1
  apply List.map_congr_left
  intro j _
  simp only [Function.comp_apply, List.map_map]
  apply List.map_congr_left
  intro v _
  simp only [Function.comp_apply]
  exact getD_succ_tail d v j

theorem colsOf_length {α : Type} (d : α) (L : List (List α)) (n : ℕ) :
    (colsOf d L n).length = n := by
  simp [colsOf]

theorem colsOf_filterByMask {α : Type} (d : α) : ∀ (bs : List Bool) (L : List (List α)),
    (∀ v ∈ L, v.length = bs.length) →
    colsOf d (L.map (fun v => filterByMask v bs)) (countTrue bs) =
      filterByMask (colsOf d L bs.length) bs
  | [], L, _ => by simp [colsOf, countTrue, filterByMask]
  | b :: bs, L, hlen => by
    have hv : ∀ v ∈ L, filterByMask v (b :: bs) =
        if b then v.getD 0 d :: filterByMask v.tail bs else filterByMask v.tail bs := by
      intro v hvL
      have hl : v.length = bs.length + 1 := by simpa using hlen v hvL
      cases v with
      | nil => simp at hl
      | cons a v' => cases b <;> rfl
    have htails : ∀ v ∈ L.map List.tail, v.length = bs.length := by
      intro v hvm
      obtain ⟨w, hw, rfl⟩ := List.mem_map.mp hvm
      have := hlen w hw
      cases w with
      | nil => simp at this
      | cons a w' => simpa using this
    have ih := colsOf_filterByMask d bs (L.map List.tail) htails
    have hcomp : L.map (fun v : List α => filterByMask v.tail bs) =
        (L.map List.tail).map (fun v => filterByMask v bs) := by
      rw [List.map_map]
      exact List.map_congr_left (fun v hv2 => rfl)
    have hRHS : colsOf d L (bs.length + 1) =
        L.map (fun v => v.getD 0 d) :: colsOf d (L.map List.tail) bs.length :=
      colsOf_succ d L bs.length
    cases b with
    | true =>
      have hL : L.map (fun v => filterByMask v (true :: bs)) =
          L.map (fun v => v.getD 0 d :: filterByMask v.tail bs) :=
        List.map_congr_left (fun v hvL => by rw [hv v hvL]; rfl)
      have hct : countTrue (true :: bs) = countTrue bs + 1 := by
        simp [countTrue]
        omega
      rw [hL, hct, colsOf_succ, List.length_cons, hRHS]
      show _ :: _ = filterByMask (_ :: _) (true :: bs)
      simp only [filterByMask, if_true]
      congr 1
      · rw [List.map_map]
        exact List.map_congr_left (fun v hv2 => rfl)
      · rw [List.map_map]
        have h1 : L.map (List.tail ∘ fun v => v.getD 0 d :: filterByMask v.tail bs) =
            L.map (fun v : List α => filterByMask v.tail bs) :=
          List.map_congr_left (fun v hv2 => rfl)
        rw [h1, hcomp]
        exact ih
    | false =>
      have hL : L.map (fun v => filterByMask v (false :: bs)) =
          L.map (fun v => filterByMask v.tail bs) :=
        List.map_congr_left (fun v hvL => by rw [hv v hvL]; rfl)
      have hct : countTrue (false :: bs) = countTrue bs := by simp [countTrue]
      rw [hL, hct, List.length_cons, hRHS]
      show _ = filterByMask (_ :: _) (false :: bs)
      have hred : filterByMask (L.map (fun v => v.getD 0 d) ::
          colsOf d (L.map List.tail) bs.length) (false :: bs) =
          filterByMask (colsOf d (L.map List.tail) bs.length) bs := by
        simp [filterByMask]
      rw [hred, hcomp]
      exact ih

/-! ### Stability of pruning passes -/

/-- A table is stable along an axis when every surviving vector along that
axis passes the keep test evaluated at the table itself (so the corresponding
`drop_axis_label` pass keeps everything). -/
def stableAxis (t : Table) (axis : Bool) (mgv mguv : Option ℚ) : Prop :=
  if axis = false then
    ∀ r ∈ t.rows, vectorKept mgv mguv t.nCols r.2 = true
  else
    ∀ v ∈ t.colVecs, vectorKept mgv mguv t.nRows v = true

theorem mask_length (t : Table) (mgv mguv : Option ℚ) :
    (t.colVecs.map (vectorKept mgv mguv t.nRows)).length = t.nCols := by
  simp [Table.colVecs, colsOf_length]

theorem drop_axis_label_of_stable (t : Table) (axis : Bool) (mgv mguv : Option ℚ)
    (hsome : ¬ (mgv = none ∧ mguv = none)) (hrect : t.Rect)
    (hst : stableAxis t axis mgv mguv) :
    drop_axis_label t axis mgv mguv = some t := by
  unfold drop_axis_label
  rw [if_neg hsome]
  cases axis with
  | false =>
    rw [if_pos rfl]
    have hst' : ∀ r ∈ t.rows, vectorKept mgv mguv t.nCols r.2 = true := by
      simpa [stableAxis] using hst
    have hall : t.rows.filter (fun r => vectorKept mgv mguv t.nCols r.2) = t.rows :=
      List.filter_eq_self.mpr hst'
    rw [hall]
  | true =>
    rw [if_neg (by simp)]
    have hst' : ∀ v ∈ t.colVecs, vectorKept mgv mguv t.nRows v = true := by
      simpa [stableAxis] using hst
    have hmask : ∀ b ∈ t.colVecs.map (vectorKept mgv mguv t.nRows), b = true := by
      intro b hb
      obtain ⟨v, hvm, rfl⟩ := List.mem_map.mp hb
      exact hst' v hvm
    have hmlen := mask_length t mgv mguv
    have hcl : filterByMask t.colLabels (t.colVecs.map (vectorKept mgv mguv t.nRows)) =
        t.colLabels :=
      filterByMask_all_true _ _ hmask (le_of_eq hmlen.symm)
    have hrows : t.rows.map (fun r => (r.1, filterByMask r.2
        (t.colVecs.map (vectorKept mgv mguv t.nRows)))) = t.rows := by
      have hid : t.rows.map (fun r => (r.1, filterByMask r.2
          (t.colVecs.map (vectorKept mgv mguv t.nRows)))) = t.rows.map (fun r => r) :=
        List.map_congr_left (fun r hr => by
          rw [filterByMask_all_true r.2 _ hmask (le_of_eq ((hrect r hr).trans hmlen.symm))])
      rw [hid, List.map_id']
    rw [hcl, hrows]

theorem drop_axis_label_some_thresholds (t : Table) (axis : Bool) (mgv mguv : Option ℚ)
    (t2 : Table) (h : drop_axis_label t axis mgv mguv = some t2) :
    ¬ (mgv = none ∧ mguv = none) := by
  intro hboth
  unfold drop_axis_label at h
  rw [if_pos hboth] at h
  exact Option.noConfusion h

theorem drop_axis_label_colVecs (t : Table) (mgv mguv : Option ℚ) (t2 : Table)
    (hrect : t.Rect) (h : drop_axis_label t true mgv mguv = some t2) :
    t2.colVecs = t.colVecs.filter (vectorKept mgv mguv t.nRows) ∧
    t2.nRows = t.nRows ∧ t2.Rect := by
  unfold drop_axis_label at h
  rw [if_neg (drop_axis_label_some_thresholds t true mgv mguv t2 h),
    if_neg (by simp)] at h
  cases h
  constructor
  · show colsOf none _ _ = _
    have hsnd : (t.rows.map (fun r => (r.1, filterByMask r.2
        (t.colVecs.map (vectorKept mgv mguv t.nRows))))).map Prod.snd =
        (t.rows.map Prod.snd).map
          (fun v => filterByMask v (t.colVecs.map (vectorKept mgv mguv t.nRows))) := by
      rw [List.map_map, List.map_map]
      exact List.map_congr_left (fun r hr => rfl)
    have hnc : (filterByMask t.colLabels
        (t.colVecs.map (vectorKept mgv mguv t.nRows))).length =
        countTrue (t.colVecs.map (vectorKept mgv mguv t.nRows)) :=
      filterByMask_length _ _ (le_of_eq (mask_length t mgv mguv))
    have hlenL : ∀ v ∈ t.rows.map Prod.snd,
        v.length = (t.colVecs.map (vectorKept mgv mguv t.nRows)).length := by
      intro v hvm
      obtain ⟨r, hr, rfl⟩ := List.mem_map.mp hvm
      rw [mask_length t mgv mguv]
      exact hrect r hr
    show colsOf none ((Table.mk (filterByMask t.colLabels _) _).rows.map Prod.snd)
        (Table.mk (filterByMask t.colLabels _) _).nCols = _
    rw [show (Table.mk (filterByMask t.colLabels
        (t.colVecs.map (vectorKept mgv mguv t.nRows)))
        (t.rows.map (fun r => (r.1, filterByMask r.2
          (t.colVecs.map (vectorKept mgv mguv t.nRows)))))).nCols =
        countTrue (t.colVecs.map (vectorKept mgv mguv t.nRows)) from hnc]
    show colsOf none ((t.rows.map (fun r => (r.1, filterByMask r.2 _))).map Prod.snd) _ = _
    rw [hsnd]
    rw [colsOf_filterByMask none _ _ hlenL]
    rw [mask_length t mgv mguv]
    show filterByMask t.colVecs (t.colVecs.map (vectorKept mgv mguv t.nRows)) = _
    exact filterByMask_map_self _ _
  constructor
  · show (t.rows.map _).length = t.rows.length
    rw [List.length_map]
  · intro r2 hr2
    obtain ⟨r, hr, rfl⟩ := List.mem_map.mp hr2
    show (filterByMask r.2 _).length = (filterByMask t.colLabels _).length
    rw [filterByMask_length _ _ (le_of_eq ((mask_length t mgv mguv).trans (hrect r hr).symm)),
      filterByMask_length _ _ (le_of_eq (mask_length t mgv mguv))]

theorem drop_axis_label_post_stable (t : Table) (axis : Bool) (mgv mguv : Option ℚ)
    (t2 : Table) (hrect : t.Rect) (h : drop_axis_label t axis mgv mguv = some t2) :
    stableAxis t2 axis mgv mguv ∧ t2.Rect := by
  cases axis with
  | false =>
    have h' := h
    unfold drop_axis_label at h'
    rw [if_neg (drop_axis_label_some_thresholds t false mgv mguv t2 h), if_pos rfl] at h'
    cases h'
    constructor
    · show stableAxis _ false mgv mguv
      simp only [stableAxis, if_pos rfl]
      intro r hr
      exact (List.mem_filter.mp hr).2
    · intro r hr
      exact hrect r (List.mem_of_mem_filter hr)
  | true =>
    obtain ⟨hcv, hnr, hrect2⟩ := drop_axis_label_colVecs t mgv mguv t2 hrect h
    refine ⟨?_, hrect2⟩
    simp only [stableAxis, if_neg (by simp : ¬ (true = false))]
    intro v hv
    rw [hnr]
    rw [hcv] at hv
    exact List.of_mem_filter hv

theorem drop_axis_label_shape_eq (t : Table) (axis : Bool) (mgv mguv : Option ℚ)
    (t2 : Table) (hrect : t.Rect) (h : drop_axis_label t axis mgv mguv = some t2)
    (hsh : t2.tShape = t.tShape) : t2 = t := by
  have hsome := drop_axis_label_some_thresholds t axis mgv mguv t2 h
  have hst : stableAxis t axis mgv mguv := by
    cases axis with
    | false =>
      have h' := h
      unfold drop_axis_label at h'
      rw [if_neg hsome, if_pos rfl] at h'
      have ht2 := Option.some.inj h'
      have hlen : (t.rows.filter (fun r => vectorKept mgv mguv t.nCols r.2)).length =
          t.rows.length := by
        have h2 : t2.nRows = t.nRows := congrArg Prod.fst hsh
        rw [← ht2] at h2
        simpa [Table.nRows] using h2
      simp only [stableAxis, if_pos rfl]
      exact List.filter_eq_self.mp (filter_length_eq_self _ _ hlen)
    | true =>
      have h' := h
      unfold drop_axis_label at h'
      rw [if_neg hsome, if_neg (by simp)] at h'
      have hnc2 : t2.nCols = t.nCols := congrArg Prod.snd hsh
      have hmlen := mask_length t mgv mguv
      have hct : countTrue (t.colVecs.map (vectorKept mgv mguv t.nRows)) =
          (t.colVecs.map (vectorKept mgv mguv t.nRows)).length := by
        have ht2 := Option.some.inj h'
        have hcl2 : t2.nCols = countTrue (t.colVecs.map (vectorKept mgv mguv t.nRows)) := by
          rw [← ht2]
          show (filterByMask t.colLabels _).length = _
          exact filterByMask_length _ _ (le_of_eq hmlen)
        rw [hmlen, ← hnc2, hcl2]
      have hmask := countTrue_eq_length _ hct
      simp only [stableAxis, if_neg (by simp : ¬ (true = false))]
      intro v hv
      exact hmask _ (List.mem_map_of_mem _ hv)
  have hid := drop_axis_label_of_stable t axis mgv mguv hsome hrect hst
  rw [hid] at h
  exact (Option.some.injEq _ _ ▸ h).symm

theorem dropAxesLoop_eq_none (axis canReturn : Bool) (mgv mguv : Option ℚ) (t : Table)
    (hd : drop_axis_label t axis mgv mguv = none) :
    dropAxesLoop axis canReturn mgv mguv t = none := by
  rw [dropAxesLoop]
  split
  · rfl
  · next t2 heq =>
      rw [hd] at heq
      exact Option.noConfusion heq

theorem dropAxesLoop_eq_some (axis canReturn : Bool) (mgv mguv : Option ℚ) (t t2 : Table)
    (hd : drop_axis_label t axis mgv mguv = some t2) :
    dropAxesLoop axis canReturn mgv mguv t =
      if canReturn = true ∧ t2.tShape = t.tShape then some t2
      else dropAxesLoop (!axis) true mgv mguv t2 := by
  rw [dropAxesLoop]
  split
  · next heq =>
      rw [hd] at heq
      exact Option.noConfusion heq
  · next t3 heq =>
      rw [hd] at heq
      have ht3 : t2 = t3 := Option.some.inj heq
      subst ht3
      rw [dite_eq_ite]

theorem dropAxesLoop_of_bistable (axis canReturn : Bool) (mgv mguv : Option ℚ) (t : Table)
    (hsome : ¬ (mgv = none ∧ mguv = none)) (hrect : t.Rect)
    (h0 : stableAxis t false mgv mguv) (h1 : stableAxis t true mgv mguv) :
    dropAxesLoop axis canReturn mgv mguv t = some t := by
  have hdrop : ∀ a : Bool, drop_axis_label t a mgv mguv = some t := by
    intro a
    cases a
    · exact drop_axis_label_of_stable t false mgv mguv hsome hrect h0
    · exact drop_axis_label_of_stable t true mgv mguv hsome hrect h1
  cases canReturn with
  | true =>
    rw [dropAxesLoop_eq_some axis true mgv mguv t t (hdrop axis)]
    rw [if_pos ⟨rfl, rfl⟩]
  | false =>
    rw [dropAxesLoop_eq_some axis false mgv mguv t t (hdrop axis)]
    rw [if_neg (by simp)]
    rw [dropAxesLoop_eq_some (!axis) true mgv mguv t t (hdrop (!axis))]
    rw [if_pos ⟨rfl, rfl⟩]

theorem dropAxesLoop_bistable (axis canReturn : Bool) (mgv mguv : Option ℚ) (t : Table) :
    ∀ u : Table, dropAxesLoop axis canReturn mgv mguv t = some u → t.Rect →
      (canReturn = true → stableAxis t (!axis) mgv mguv) →
      u.Rect ∧ stableAxis u false mgv mguv ∧ stableAxis u true mgv mguv := by
  induction axis, canReturn, mgv, mguv, t using dropAxesLoop.induct with
  | case1 axis canReturn mgv mguv t hnone =>
    intro u hu hrect hcr
    rw [dropAxesLoop_eq_none axis canReturn mgv mguv t hnone] at hu
    exact Option.noConfusion hu
  | case2 axis canReturn mgv mguv t t2 hd hc =>
    intro u hu hrect hcr
    rw [dropAxesLoop_eq_some axis canReturn mgv mguv t t2 hd, if_pos hc] at hu
    obtain ⟨hst2, hrect2⟩ := drop_axis_label_post_stable t axis mgv mguv t2 hrect hd
    have ht2 : t2 = t := drop_axis_label_shape_eq t axis mgv mguv t2 hrect hd hc.2
    have hstother : stableAxis t2 (!axis) mgv mguv := by
      rw [ht2]
      exact hcr hc.1
    have hu2 : u = t2 := (Option.some.inj hu).symm
    subst hu2
    refine ⟨hrect2, ?_, ?_⟩
    · cases axis
      · exact hst2
      · exact hstother
    · cases axis
      · exact hstother
      · exact hst2
  | case3 axis canReturn mgv mguv t t2 hd hc ih =>
    intro u hu hrect hcr
    rw [dropAxesLoop_eq_some axis canReturn mgv mguv t t2 hd, if_neg hc] at hu
    obtain ⟨hst2, hrect2⟩ := drop_axis_label_post_stable t axis mgv mguv t2 hrect hd
    apply ih u hu hrect2
    intro _
    rw [Bool.not_not]
    exact hst2

/-- Claim C8: iterative axis pruning is idempotent.  If a run of
`drop_axes_label` (with any initial-axis choice) produced the table `u`, then
running `drop_axes_label` again on `u` with the same thresholds — with any
initial-axis choice — returns `u` unchanged (same rows, columns and values);
moreover `u` is a fixed point of one full alternation: a single
`drop_axis_label` pass along either axis leaves `u` unchanged. -/
theorem c8_drop_axes_label_idempotent (t : Table) (a1 a2 : Option Bool)
    (mgv mguv : Option ℚ) (u : Table) (hrect : t.Rect)
    (h : drop_axes_label t a1 mgv mguv = some u) :
    drop_axes_label u a2 mgv mguv = some u ∧
    drop_axis_label u false mgv mguv = some u ∧
    drop_axis_label u true mgv mguv = some u := by
  unfold drop_axes_label at h
  have hsome : ¬ (mgv = none ∧ mguv = none) := by
    rintro ⟨hm1, hm2⟩
    subst hm1
    subst hm2
    rw [dropAxesLoop_eq_none _ _ _ _ _ (by unfold drop_axis_label; rw [if_pos ⟨rfl, rfl⟩])] at h
    exact Option.noConfusion h
  obtain ⟨hrectu, h0, h1⟩ :=
    dropAxesLoop_bistable _ false mgv mguv t u h hrect (fun hc => absurd hc (by simp))
  refine ⟨?_, drop_axis_label_of_stable u false mgv mguv hsome hrectu h0,
    drop_axis_label_of_stable u true mgv mguv hsome hrectu h1⟩
  unfold drop_axes_label
  exact dropAxesLoop_of_bistable _ false mgv mguv u hsome hrectu h0 h1

/-- Witness for C8: a concrete 2x2 table with one NaN, threshold
`min_good_value = 1`; `drop_axes_label` fixes it, and a second run (with the
other initial-axis choice) returns it unchanged. -/
theorem c8_drop_axes_label_idempotent_witness :
    (Table.Rect ⟨["c1", "c2"], [("r1", [some 1, none]), ("r2", [some 1, some 2])]⟩ ∧
      drop_axes_label ⟨["c1", "c2"], [("r1", [some 1, none]), ("r2", [some 1, some 2])]⟩
        none (some 1) none =
        some ⟨["c1", "c2"], [("r1", [some 1, none]), ("r2", [some 1, some 2])]⟩) ∧
    drop_axes_label ⟨["c1", "c2"], [("r1", [some 1, none]), ("r2", [some 1, some 2])]⟩
      (some true) (some 1) none =
      some ⟨["c1", "c2"], [("r1", [some 1, none]), ("r2", [some 1, some 2])]⟩ := by
  have hd0 : drop_axis_label
      ⟨["c1", "c2"], [("r1", [some 1, none]), ("r2", [some 1, some 2])]⟩
      false (some 1) none =
      some ⟨["c1", "c2"], [("r1", [some 1, none]), ("r2", [some 1, some 2])]⟩ := by
    norm_num [drop_axis_label, vectorKept, passes, resolveThreshold, goodCount,
      List.filter_cons, Table.nCols, List.filterMap_cons, List.filterMap_nil]
    exact fun h => absurd h (by simp)
  have hd1 : drop_axis_label
      ⟨["c1", "c2"], [("r1", [some 1, none]), ("r2", [some 1, some 2])]⟩
      true (some 1) none =
      some ⟨["c1", "c2"], [("r1", [some 1, none]), ("r2", [some 1, some 2])]⟩ := by
    norm_num [drop_axis_label, vectorKept, passes, resolveThreshold, goodCount,
      Table.colVecs, Table.nRows, Table.nCols, colsOf, List.range_succ, filterByMask,
      List.filterMap_cons, List.filterMap_nil]
    exact fun h => absurd h (by simp)
  have hrun : drop_axes_label
      ⟨["c1", "c2"], [("r1", [some 1, none]), ("r2", [some 1, some 2])]⟩
      none (some 1) none =
      some ⟨["c1", "c2"], [("r1", [some 1, none]), ("r2", [some 1, some 2])]⟩ := by
    unfold drop_axes_label
    show dropAxesLoop false false (some 1) none _ = _
    rw [dropAxesLoop_eq_some false false (some 1) none _ _ hd0]
    rw [if_neg (by simp)]
    rw [Bool.not_false]
    rw [dropAxesLoop_eq_some true true (some 1) none _ _ hd1]
    rw [if_pos ⟨rfl, rfl⟩]
  exact ⟨⟨by decide, hrun⟩,
    (c8_drop_axes_label_idempotent _ none (some true) (some 1) none _ (by decide) hrun).1⟩

/-! ### kraft/dataframe.py : pivot -/

/-- Lexicographic character-code comparison, the order `numpy.unique` sorts
string labels in. -/
def strLe : List Char → List Char → Bool
  | [], _ => true
  | _ :: _, [] => false
  | a :: as, b :: bs =>
    if a.toNat < b.toNat then true
    else if b.toNat < a.toNat then false
    else strLe as bs

/-- String comparison on the underlying character lists. -/
def stringLe (a b : String) : Bool := strLe a.data b.data

/-- Insertion into a sorted label list. -/
def insertSorted (x : String) : List String → List String
  | [] => [x]
  | y :: ys => if stringLe x y then x :: y :: ys else y :: insertSorted x ys

/-- Insertion sort of labels. -/
def sortLabels : List String → List String
  | [] => []
  | x :: xs => insertSorted x (sortLabels xs)

/-- `numpy.unique` on a label column (src/kraft/dataframe.py:371-373):
the distinct labels in ascending order. -/
def pyUnique (xs : List String) : List String := sortLabels xs.dedup

/-- Modelled from the spec: `map_int` (imported from `kraft.array`, which is
not under src/) maps each unique label to its integer index, its position
among the unique labels. -/
def labelIndex (labels : List String) (l : String) : ℕ := labels.indexOf l

/-- One cell update of the pivot loop (src/kraft/dataframe.py:389-397): a NaN
cell takes the value directly; an occupied cell is combined with the caller's
`function`, which is a fatal `TypeError` (calling `None`) when no reducer was
supplied. -/
def pivotStep {α : Type} (function : Option (α → α → α)) (cur : Option α) (v : α) :
    Except String (Option α) :=
  match cur with
  | none => .ok (some v)
  | some w =>
    match function with
    | none => .error "TypeError: NoneType object is not callable"
    | some f => .ok (some (f w v))

/-- Read `matrix[i, j]`. -/
def getCell {α : Type} (m : List (List (Option α))) (i j : ℕ) : Option α :=
  (m.getD i []).getD j none

/-- Write `matrix[i, j] = v`. -/
def setCell {α : Type} (m : List (List (Option α))) (i j : ℕ) (v : Option α) :
    List (List (Option α)) :=
  m.set i ((m.getD i []).set j v)

/-- The row loop of `pivot` (src/kraft/dataframe.py:381-397) over
(row-index, column-index, value) triples. -/
def pivotLoop {α : Type} (function : Option (α → α → α)) :
    List (ℕ × ℕ × α) → List (List (Option α)) → Except String (List (List (Option α)))
  | [], m => .ok m
  | (i, j, v) :: rest, m =>
    match pivotStep function (getCell m i j) v with
    | .error e => .error e
    | .ok cellv => pivotLoop function rest (setCell m i j cellv)

/-- The result of `pivot`: the sorted unique row labels, the sorted unique
column labels, and the cell matrix (`none` is NaN). -/
structure PivotTable (α : Type) where
  rowLabels : List String
  columnLabels : List String
  cells : List (List (Option α))
deriving DecidableEq

/-- Embedding of `pivot` (src/kraft/dataframe.py:364-399) on the three
parallel columns (row-key, col-key, value), generic in the cell value type:
build the sorted unique labels of both key columns, start from an all-NaN
matrix, and fold every triple through `pivotStep` at the indexed cell. -/
def pivot {α : Type} (rows : List (String × String × α)) (function : Option (α → α → α)) :
    Except String (PivotTable α) :=
  let axis_0_labels := pyUnique (rows.map (fun r => r.1))
  let axis_1_labels := pyUnique (rows.map (fun r => r.2.1))
  let init := List.replicate axis_0_labels.length
    (List.replicate axis_1_labels.length (none : Option α))
  match pivotLoop function
      (rows.map (fun r => (labelIndex axis_0_labels r.1, labelIndex axis_1_labels r.2.1, r.2.2)))
      init with
  | .error e => .error e
  | .ok m => .ok ⟨axis_0_labels, axis_1_labels, m⟩

/-- Claim C9: a `(row-key, col-key)` pair seen for the first time fills its
cell with the value directly, every later duplicate replaces the cell with
`reducer(existing, new)`; with reducer `+`, the rows (A,X,1), (A,X,2), (B,Y,5)
yield a 2x2 table with cell (A,X)=3, cell (B,Y)=5 and the other two cells
missing; and with no reducer, a duplicate pair is a fatal null-function-call
error. -/
theorem c9_pivot_duplicate_reduction {α : Type} (f : α → α → α) (g : Option (α → α → α))
    (w v : α) :
    pivotStep g none v = .ok (some v) ∧
    pivotStep (some f) (some w) v = .ok (some (f w v)) ∧
    pivot [("A", "X", (1 : ℕ)), ("A", "X", 2), ("B", "Y", 5)] (some (· + ·)) =
      .ok ⟨["A", "B"], ["X", "Y"], [[some 3, none], [none, some 5]]⟩ ∧
    pivot [("A", "X", (1 : ℕ)), ("A", "X", 2), ("B", "Y", 5)] (none : Option (ℕ → ℕ → ℕ)) =
      .error "TypeError: NoneType object is not callable" :=
  ⟨rfl, rfl, by rfl, by rfl⟩

/-! ### kwat/vcf/make_variant_dict_consistent.py -/

/-- A Python value stored in a variant dictionary: an opaque payload, Python
`None`, or the nested `{0: {key: value, ...}}` dictionary this function
builds (`Val.zeroObj m` embeds `{0: m}` with `m` a string-keyed dict). -/
inductive Val
  | atom (n : ℕ)
  | vnone
  | zeroObj (entries : List (String × Val))

/-- `dict` lookup on an association list, first match. -/
def dictGet : List (String × Val) → String → Option Val
  | [], _ => none
  | (k0, v0) :: rest, k => if k0 = k then some v0 else dictGet rest k

/-- Python `dict.get(key)`: the stored value, or `None` when absent. -/
def getOrNone (d : List (String × Val)) (k : String) : Val := (dictGet d k).getD Val.vnone

/-- Python dict assignment `d[key] = value`: replaces the value in place at an
existing key, else appends the new entry. -/
def dictSet : List (String × Val) → String → Val → List (String × Val)
  | [], k, v => [(k, v)]
  | (k0, v0) :: rest, k, v =>
    if k0 = k then (k, v) :: rest else (k0, v0) :: dictSet rest k v

/-- Embedding of `make_variant_dict_consistent`
(src/kwat/vcf/make_variant_dict_consistent.py): set `vd["ANN"]` to
`{0: {an: vd.get(an) for an in an_}}` — the comprehension reads the dict
before this assignment, since Python evaluates the right-hand side first —
then set `vd["sample"]` to `{0: {fo: vd.get(fo) for fo in fo_}}`, whose
comprehension reads the dict AFTER the `"ANN"` assignment.  The Python
function mutates `vd` in place and returns `None`; the embedding returns the
mutated dict as the new state. -/
def make_variant_dict_consistent (vd : List (String × Val)) (an_ fo_ : List String) :
    List (String × Val) :=
  let vd1 := dictSet vd "ANN" (Val.zeroObj (an_.map (fun an => (an, getOrNone vd an))))
  dictSet vd1 "sample" (Val.zeroObj (fo_.map (fun fo => (fo, getOrNone vd1 fo))))

theorem dictGet_dictSet_same : ∀ (d : List (String × Val)) (k : String) (v : Val),
    dictGet (dictSet d k v) k = some v
  | [], k, v => by simp [dictSet, dictGet]
  | (k0, v0) :: rest, k, v => by
    by_cases hk : k0 = k
    · simp [dictSet, dictGet, hk]
    · simp [dictSet, dictGet, hk, dictGet_dictSet_same rest k v]

theorem dictGet_dictSet_ne : ∀ (d : List (String × Val)) (k k2 : String) (v : Val),
    k ≠ k2 → dictGet (dictSet d k v) k2 = dictGet d k2
  | [], k, k2, v, hne => by simp [dictSet, dictGet, hne]
  | (k0, v0) :: rest, k, k2, v, hne => by
    by_cases hk : k0 = k
    · subst hk
      simp [dictSet, dictGet, hne]
    · simp [dictSet, dictGet, hk, dictGet_dictSet_ne rest k k2 v hne]

/-- Counterexample for C10 as stated: with default annotation keys and the
format-field list `["ANN"]` on an empty input dict, the `"sample"` entry maps
`"ANN"` to the freshly built `"ANN"` value (the second comprehension reads
the already-mutated dict), not to the pre-call value `None` that the claim
predicts. -/
theorem c10_counterexample :
    dictGet (make_variant_dict_consistent [] ["effect", "impact", "gene_name"] ["ANN"])
      "sample" =
      some (Val.zeroObj [("ANN", Val.zeroObj
        [("effect", Val.vnone), ("impact", Val.vnone), ("gene_name", Val.vnone)])]) ∧
    dictGet (make_variant_dict_consistent [] ["effect", "impact", "gene_name"] ["ANN"])
      "sample" ≠ some (Val.zeroObj [("ANN", Val.vnone)]) := by
  constructor
  · rfl
  · intro h
    rw [show dictGet (make_variant_dict_consistent [] ["effect", "impact", "gene_name"]
        ["ANN"]) "sample" =
        some (Val.zeroObj [("ANN", Val.zeroObj
          [("effect", Val.vnone), ("impact", Val.vnone), ("gene_name", Val.vnone)])])
        from rfl] at h
    simp at h

/-- Claim C10 (amended: after the call, `"ANN"` maps to `{0: {an: pre-call
value or None}}`; `"sample"` maps to `{0: {fo: value or None}}` read AFTER
the `"ANN"` assignment — so a requested format field named `"ANN"` receives
the newly built `"ANN"` entry, every other field its pre-call value or None —
and every other key of the dict is unchanged; missing requested keys yield
None entries rather than an error). -/
theorem c10_amended_variant_dict (vd : List (String × Val)) (an_ fo_ : List String) :
    dictGet (make_variant_dict_consistent vd an_ fo_) "ANN" =
      some (Val.zeroObj (an_.map (fun an => (an, getOrNone vd an)))) ∧
    dictGet (make_variant_dict_consistent vd an_ fo_) "sample" =
      some (Val.zeroObj (fo_.map (fun fo =>
        (fo, if fo = "ANN"
          then Val.zeroObj (an_.map (fun an => (an, getOrNone vd an)))
          else getOrNone vd fo)))) ∧
    ∀ k, k ≠ "ANN" → k ≠ "sample" →
      dictGet (make_variant_dict_consistent vd an_ fo_) k = dictGet vd k := by
  unfold make_variant_dict_consistent
  refine ⟨?_, ?_, ?_⟩
  · rw [dictGet_dictSet_ne _ _ _ _ (by decide)]
    exact dictGet_dictSet_same _ _ _
  · rw [dictGet_dictSet_same]
    have hmap : fo_.map (fun fo =>
        (fo, getOrNone (dictSet vd "ANN"
          (Val.zeroObj (an_.map (fun an => (an, getOrNone vd an))))) fo)) =
        fo_.map (fun fo =>
        (fo, if fo = "ANN"
          then Val.zeroObj (an_.map (fun an => (an, getOrNone vd an)))
          else getOrNone vd fo)) := by
      apply List.map_congr_left
      intro fo hfo
      by_cases hf : fo = "ANN"
      · subst hf
        rw [if_pos rfl]
        unfold getOrNone
        rw [dictGet_dictSet_same]
        rfl
      · rw [if_neg hf]
        unfold getOrNone
        rw [dictGet_dictSet_ne _ _ _ _ (fun he => hf he.symm)]
    rw [hmap]
  · intro k hk1 hk2
    rw [dictGet_dictSet_ne _ _ _ _ (fun he => hk2 he.symm),
      dictGet_dictSet_ne _ _ _ _ (fun he => hk1 he.symm)]

/-- Witness for C10's amended theorem at a concrete dict and key. -/
theorem c10_amended_variant_dict_witness :
    ("x" ≠ "ANN" ∧ "x" ≠ "sample") ∧
    dictGet (make_variant_dict_consistent [("x", Val.atom 7)] ["effect"] ["GT"]) "x" =
      dictGet [("x", Val.atom 7)] "x" :=
  ⟨⟨by decide, by decide⟩,
   (c10_amended_variant_dict [("x", Val.atom 7)] ["effect"] ["GT"]).2.2 "x"
     (by decide) (by decide)⟩

end Spec2Proof
